import Mathlib

/-!
# Exercise tracker (server.js): shallow embedding and checked properties

The three request handlers of `server.js` are embedded as pure functions over an
explicit store:

* the MongoDB collection is a `List User`; a document's position in the list plays
  the part of its `_id` (`findOne` returns the first match, `save` writes back at
  that position, a new document is appended);
* a request field is an `Option String`: `none` is `undefined` (field not sent),
  `some s` is the string that was sent;
* a `Date` is its time value in milliseconds (`Int`); the clock (`new Date()`) is
  the argument `now`;
* what the JavaScript runtime and the libraries supply (date parsing, moment
  formatting, `Array.prototype.sort`) is a `Runtime` record passed to the handlers;
* a Number is modelled where the handlers produce one: the schema declares `duration`
  as Number, so the entry pushed on lines 88-92 holds `Number(req.body.duration)`,
  a natural number that a double holds, or Infinity;
* persistence is synchronous: a `save()` has taken effect when the handler returns.
-/

namespace ExerciseTracker

/-! ## Data model (userSchema, lines 23-34) -/

/-- A Number that the schema cast of a digits-only string can yield: a natural number
or Infinity. -/
inductive JsNumber where
  | finite (n : Nat)
  | infinity
  deriving DecidableEq, Repr

/-- One element of `log`. The schema (line 30) declares `duration` as Number, so the
entry holds the Number the pushed string is cast to; `date` is the time value of the
stored Date. -/
structure Exercise where
  description : String
  duration : JsNumber
  date : Int
  deriving DecidableEq, Repr

/-- A document of the `User` model. -/
structure User where
  username : String
  userId : String
  count : Nat
  log : List Exercise
  deriving DecidableEq, Repr

/-- The collection of `User` documents. -/
abbrev Store := List User

/-- What the handlers take from the JavaScript runtime and from moment. -/
structure Runtime where
  /-- The time value of `new Date(s)` for a string `s`; `none` is Invalid Date. -/
  parseDate : String → Option Int
  /-- The string `moment(d).format('MMM Do YYYY dddd')` for a Date `d`. -/
  formatDate : Int → String
  /-- The string `moment(s).format('MMM Do YYYY dddd')` for a string `s`. -/
  formatString : String → String
  /-- The list left by `Array.prototype.sort(comparefn)`. -/
  sort : (Exercise → Exercise → Int) → List Exercise → List Exercise

/-! ## JavaScript primitives used by the handlers -/

/-- The value of `s.length`: the number of UTF-16 code units of `s`. -/
def jsLength (s : String) : Nat :=
  (s.data.map (fun c => if c.val < 0x10000 then 1 else 2)).sum

/-- The value of `!x` for a request field: true for `undefined` and for the empty
string. -/
def falsy (x : Option String) : Bool :=
  match x with
  | none => true
  | some s => s == ""

/-- The test `/^\d+$/g.test(s)`: at least one character, all of them `0`..`9`. -/
def digitsOnly (s : String) : Bool :=
  !s.data.isEmpty && s.data.all Char.isDigit

/-- The number a string of decimal digits denotes. -/
def durationValue (s : String) : Nat :=
  s.data.foldl (fun n c => 10 * n + (c.toNat - 48)) 0

/-- How many times `n` is halved before it is below `2 ^ 53`: the binary exponent of
the double nearest to `n`. -/
def halvings : Nat → Nat → Nat
  | 0, _ => 0
  | fuel + 1, n => if n < 2 ^ 53 then 0 else halvings fuel (n / 2) + 1

/-- The double nearest to the natural number `n`, ties going to the even significand
of 53 bits; Infinity when the rounded value reaches `2 ^ 1024`. -/
def roundToDouble (n : Nat) : JsNumber :=
  if n < 2 ^ 53 then .finite n
  else
    let e := halvings n n
    let q := n / 2 ^ e
    let r := n % 2 ^ e
    let half := 2 ^ (e - 1)
    let q := if r > half ∨ (r = half ∧ q % 2 = 1) then q + 1 else q
    if q * 2 ^ e < 2 ^ 1024 then .finite (q * 2 ^ e) else .infinity

/-- The value of `Number(s)` for a digits-only string `s`, which is what the schema
cast of `duration` (line 30) stores for the string pushed on line 90. -/
def castNumber (s : String) : JsNumber :=
  roundToDouble (durationValue s)

/-- The value of `Date.parse(d)` for a Date `d`: the Date is converted to its string
form, which carries no milliseconds, and parsed back. The string form of a Date of a
year before 0 is not parsed back: the value is NaN (`none`). The time zone of the
server is taken to be UTC. -/
def dateParse (t : Int) : Option Int :=
  if t < -62167219200000 then none else some (t / 1000 * 1000)

/-- The document given by `Model.findOne(filter, ...)`: the first match, with its
position. -/
def findOne (p : User → Bool) : Store → Option (Nat × User)
  | [] => none
  | u :: rest =>
    if p u then some (0, u)
    else (findOne p rest).map (fun r => (r.1 + 1, r.2))

/-- The effect of `user.save()` for a document read from position `i`. -/
def save (store : Store) (i : Nat) (user : User) : Store :=
  store.set i user

/-- The effect of `arr.length = n` on an array that may have holes (`none`): the array
is cut to `n` elements or padded with holes up to `n`. -/
def setLength {α : Type} (arr : List (Option α)) (n : Nat) : List (Option α) :=
  arr.take n ++ List.replicate (n - arr.length) none

/-! ## POST /api/exercise/new-user (lines 39-59) -/

/-- The JSON sent by the new-user handler. -/
inductive NewUserResponse where
  | text (msg : String)
  | created (username : String) (id : String)
  deriving DecidableEq, Repr

/-- The new-user handler. `username` is `req.body.username`, `freshId` is the value
returned by `shortid.generate()`. -/
def postNewUser (store : Store) (username : String) (freshId : String) :
    NewUserResponse × Store :=
  let found := findOne (fun u => u.username == username) store
  if username == "" then
    (.text "Please enter a valid username.", store)
  else
    match found with
    | none =>
      let user : User := { username := username, userId := freshId, count := 0, log := [] }
      (.created user.username user.userId, store ++ [user])
    | some _ =>
      (.text "Username already taken...", store)

/-! ## POST /api/exercise/add (lines 62-105) -/

/-- The body of an add request. -/
structure AddBody where
  userId : String
  description : Option String
  duration : Option String
  date : Option String
  deriving DecidableEq, Repr

/-- The JSON sent by the add handler. -/
inductive AddResponse where
  | msg (text : String)
  | missing (fields : List String)
  | error (messages : List String)
  | added (username id description duration date : String)
  deriving DecidableEq, Repr

/-- The list `isValid` built by lines 66-69. -/
def missingFields (body : AddBody) : List String :=
  let isValid : List String := []
  let isValid := if falsy body.description then isValid ++ ["Description"] else isValid
  let isValid := if falsy body.duration then isValid ++ ["Duration"] else isValid
  isValid

/-- The value of `isDate` (lines 72-73): `new Date(undefined)` is Invalid Date. -/
def isDate (rt : Runtime) (date : Option String) : Bool :=
  match date with
  | none => false
  | some s => (rt.parseDate s).isSome

/-- The list `isValid` built by lines 75-80, for a body that has passed line 70. -/
def validationErrors (rt : Runtime) (body : AddBody) : List String :=
  let isValid : List String := []
  let isValid :=
    if jsLength (body.description.getD "") > 48 then isValid ++ ["Description is too long"]
    else isValid
  let isValid :=
    if !digitsOnly (body.duration.getD "") then isValid ++ ["Duration should be number only"]
    else isValid
  let isValid :=
    if body.date != some "" && !isDate rt body.date then isValid ++ ["Date entry is invalid"]
    else isValid
  isValid

/-- The Date stored for `date = req.body.date || new Date()` (line 86). -/
def storedDate (rt : Runtime) (now : Int) (date : Option String) : Int :=
  match date with
  | none => now
  | some s => if s == "" then now else (rt.parseDate s).getD now

/-- The string `moment(date).format(...)` of line 99. -/
def addedDate (rt : Runtime) (now : Int) (date : Option String) : String :=
  match date with
  | none => rt.formatDate now
  | some s => if s == "" then rt.formatDate now else rt.formatString s

/-- The add handler. -/
def postAdd (rt : Runtime) (now : Int) (store : Store) (body : AddBody) :
    AddResponse × Store :=
  match findOne (fun u => u.userId == body.userId) store with
  | none => (.msg "No user found...", store)
  | some (i, user) =>
    let isValid := missingFields body
    if isValid.length > 0 then (.missing isValid, store)
    else
      let isValid := validationErrors rt body
      if isValid.length > 0 then (.error isValid, store)
      else
        let description := body.description.getD ""
        let duration := body.duration.getD ""
        let user : User :=
          { user with
            count := user.count + 1
            log := user.log ++
              [{ description := description, duration := castNumber duration,
                 date := storedDate rt now body.date }] }
        (.added user.username user.userId description duration (addedDate rt now body.date),
         save store i user)

/-! ## GET /api/exercise/log (lines 108-148) -/

/-- The query of a log request. `limit` is the number the query parameter denotes,
when it denotes an integer. -/
structure LogQuery where
  userId : String
  from_ : Option String
  to_ : Option String
  limit : Option Int
  deriving DecidableEq, Repr

/-- An element of the `log` array of the response. -/
structure LogItem where
  description : String
  duration : JsNumber
  date : String
  deriving DecidableEq, Repr

/-- The outcome of the log handler: a JSON text, the JSON result object (a hole of
`log` is serialised as `null`), or the RangeError thrown by line 128. -/
inductive LogResponse where
  | text (msg : String)
  | result (username id : String) (count : Nat) (log : List (Option LogItem))
  | rangeError
  deriving DecidableEq, Repr

/-- The comparefn of lines 114-116; its boolean result is read as 1 or 0 by sort, and
a comparison with NaN is false. -/
def compareFn (a b : Exercise) : Int :=
  match dateParse a.date, dateParse b.date with
  | some x, some y => if x > y then 1 else 0
  | _, _ => 0

/-- The filter of line 120: `d.date >= date`, false against Invalid Date. -/
def filterFrom (rt : Runtime) (from_ : Option String) (sortedDate : List Exercise) :
    List Exercise :=
  match from_ with
  | none => sortedDate
  | some s =>
    match rt.parseDate s with
    | none => sortedDate.filter (fun _ => false)
    | some date => sortedDate.filter (fun d => decide (d.date ≥ date))

/-- The filter of line 125: `d.date <= date`, false against Invalid Date. -/
def filterTo (rt : Runtime) (to_ : Option String) (sortedDate : List Exercise) :
    List Exercise :=
  match to_ with
  | none => sortedDate
  | some s =>
    match rt.parseDate s with
    | none => sortedDate.filter (fun _ => false)
    | some date => sortedDate.filter (fun d => decide (d.date ≤ date))

/-- The object `newX` of lines 131-136. -/
def newX (rt : Runtime) (x : Exercise) : LogItem :=
  { description := x.description, duration := x.duration, date := rt.formatDate x.date }

/-- The log handler. It sends a response and saves nothing. -/
def getLog (rt : Runtime) (store : Store) (query : LogQuery) : LogResponse :=
  match findOne (fun u => u.userId == query.userId) store with
  | none => .text "Not user with that ID is found."
  | some (_, user) =>
    let sortedDate := rt.sort compareFn user.log
    let sortedDate := filterFrom rt query.from_ sortedDate
    let sortedDate := filterTo rt query.to_ sortedDate
    let sortedDate : List (Option Exercise) := sortedDate.map some
    match query.limit with
    | none =>
      let newLog := sortedDate.map (Option.map (newX rt))
      .result user.username query.userId newLog.length newLog
    | some limit =>
      if limit > 0 then
        if limit < 2 ^ 32 then
          let sortedDate := setLength sortedDate limit.toNat
          let newLog := sortedDate.map (Option.map (newX rt))
          .result user.username query.userId newLog.length newLog
        else .rangeError
      else
        let newLog := sortedDate.map (Option.map (newX rt))
        .result user.username query.userId newLog.length newLog

/-- The selection the specification describes for the log query: an entry dated `t`
is kept when `t` is not before the lower bound and not after the upper bound, a
bound that was not supplied excluding nothing. -/
def withinBounds (lower upper : Option Int) (t : Int) : Bool :=
  (match lower with
   | none => true
   | some f => decide (f ≤ t)) &&
  (match upper with
   | none => true
   | some u => decide (t ≤ u))

/-! ## Sequences of requests -/

/-- A request to one of the three routes, with what the environment supplies for it
(the generated id, the clock). -/
inductive Request where
  | newUser (username : String) (freshId : String)
  | add (now : Int) (body : AddBody)
  | log (query : LogQuery)
  deriving DecidableEq, Repr

/-- The response to a request. -/
inductive Response where
  | newUser (r : NewUserResponse)
  | add (r : AddResponse)
  | log (r : LogResponse)
  deriving DecidableEq, Repr

/-- One request served against the store: the response and the store afterwards. -/
def serve (rt : Runtime) (store : Store) : Request → Response × Store
  | .newUser username freshId =>
    let r := postNewUser store username freshId
    (.newUser r.1, r.2)
  | .add now body =>
    let r := postAdd rt now store body
    (.add r.1, r.2)
  | .log query => (.log (getLog rt store query), store)

/-- The store after a sequence of requests served one after the other. -/
def run (rt : Runtime) (store : Store) (reqs : List Request) : Store :=
  reqs.foldl (fun s r => (serve rt s r).2) store

/-! ## A model of the runtime

`Array.prototype.sort` as V8 (Node 11 and later) carries it out on an array of fewer
than 64 elements: the leading run is counted (and reversed when it is strictly
descending), then the remaining elements are placed by binary insertion. Both steps
ask only whether `comparefn(x, y) < 0`. -/

/-- The binary search of the insertion step: the position of `pivot` in `a[left..right)`. -/
def searchPosition {α : Type} (comparefn : α → α → Int) (pivot : α) (a : List α) :
    Nat → Nat → Nat → Nat
  | 0, left, _ => left
  | fuel + 1, left, right =>
    if left < right then
      let mid := left + (right - left) / 2
      match a.get? mid with
      | none => left
      | some x =>
        if comparefn pivot x < 0 then searchPosition comparefn pivot a fuel left mid
        else searchPosition comparefn pivot a fuel (mid + 1) right
    else left

/-- The list `a` with `pivot` placed at position `i`. -/
def insertAt {α : Type} (i : Nat) (pivot : α) (a : List α) : List α :=
  a.take i ++ pivot :: a.drop i

/-- Binary insertion of the elements of `rest`, in turn, into the run. -/
def binaryInsertionSort {α : Type} (comparefn : α → α → Int) (sortedRun rest : List α) :
    List α :=
  rest.foldl
    (fun a pivot => insertAt (searchPosition comparefn pivot a (a.length + 1) 0 a.length) pivot a)
    sortedRun

/-- How many of the elements after `previous` continue the run. -/
def continueRun {α : Type} (comparefn : α → α → Int) (isDescending : Bool) :
    α → List α → Nat
  | _, [] => 0
  | previous, current :: rest =>
    let order := comparefn current previous
    if isDescending then
      if order ≥ 0 then 0 else continueRun comparefn isDescending current rest + 1
    else
      if order < 0 then 0 else continueRun comparefn isDescending current rest + 1

/-- The length of the leading run and whether it is descending. -/
def countAndMakeRun {α : Type} (comparefn : α → α → Int) : List α → Nat × Bool
  | [] => (0, false)
  | [_] => (1, false)
  | first :: second :: rest =>
    let isDescending := decide (comparefn second first < 0)
    (continueRun comparefn isDescending second rest + 2, isDescending)

/-- The sort of V8 on a short array. -/
def v8Sort {α : Type} (comparefn : α → α → Int) (a : List α) : List α :=
  if a.length < 2 then a
  else
    let r := countAndMakeRun comparefn a
    let sortedRun := if r.2 then (a.take r.1).reverse else a.take r.1
    binaryInsertionSort comparefn sortedRun (a.drop r.1)

/-- A comparefn that returns a number, as `Array.prototype.sort` expects:
`a.date - b.date`, the difference of the two time values. -/
def numericCompareFn (a b : Exercise) : Int :=
  a.date - b.date

/-- Date parsing on the ISO dates used in the examples below; any other string is
taken as unparsable. -/
def sampleParseDate (s : String) : Option Int :=
  if s == "2024-01-01" then some 1704067200000
  else if s == "2024-01-02" then some 1704153600000
  else if s == "2024-01-03" then some 1704240000000
  else none

/-- Formatting of the dates used in the examples below. -/
def sampleFormatDate (t : Int) : String :=
  if t = 1704067200000 then "Jan 1st 2024 Monday"
  else if t = 1704153600000 then "Jan 2nd 2024 Tuesday"
  else if t = 1704240000000 then "Jan 3rd 2024 Wednesday"
  else "another day"

/-- The runtime of the examples: V8 sorting, dates of the first days of 2024. -/
def sampleRuntime : Runtime :=
  { parseDate := sampleParseDate
    formatDate := sampleFormatDate
    formatString := fun s => (sampleParseDate s).elim "Invalid date" sampleFormatDate
    sort := v8Sort }

/-! ## Example data -/

/-- A user with an empty log. -/
def alice : User :=
  { username := "alice", userId := "a1", count := 0, log := [] }

/-- An entry dated 1 January 2024. -/
def runEntry : Exercise :=
  { description := "run", duration := .finite 30, date := 1704067200000 }

/-- An entry dated 2 January 2024. -/
def swimEntry : Exercise :=
  { description := "swim", duration := .finite 45, date := 1704153600000 }

/-- A user who logged the swim of 2 January first and the run of 1 January second. -/
def bob : User :=
  { username := "bob", userId := "b2", count := 2, log := [swimEntry, runEntry] }

/-- A user with a single entry. -/
def carol : User :=
  { username := "carol", userId := "c3", count := 1, log := [runEntry] }

/-- The store of the examples. -/
def sampleStore : Store := [alice, bob, carol]

/-- A description of 49 characters. -/
def longDescription : String :=
  "forty-nine characters of description, no fewer.!!"

/-- An add request for alice that fails all three checks of lines 76-80. -/
def rejectedBody : AddBody :=
  { userId := "a1", description := some longDescription, duration := some "3x",
    date := some "soon" }

/-- An add request for alice with a description and a duration and no date field. -/
def noDateBody : AddBody :=
  { userId := "a1", description := some "run", duration := some "30", date := none }

/-- The log query for bob's whole log. -/
def bobQuery : LogQuery :=
  { userId := "b2", from_ := none, to_ := none, limit := none }

/-- The log query for bob's entries from 2 January to 3 January 2024. -/
def bobBoundedQuery : LogQuery :=
  { userId := "b2", from_ := some "2024-01-02", to_ := some "2024-01-03", limit := none }

/-- The log query for carol's log with `limit=2`. -/
def carolLimitQuery : LogQuery :=
  { userId := "c3", from_ := none, to_ := none, limit := some 2 }

/-- A session: alice registers, adds a run without choosing a date, reads her log,
somebody tries to register her name again, and she adds a swim dated 2 January. -/
def sampleSession : List Request :=
  [.newUser "alice" "a1",
   .add 1704067200000
     { userId := "a1", description := some "run", duration := some "30", date := some "" },
   .log { userId := "a1", from_ := none, to_ := none, limit := none },
   .newUser "alice" "x9",
   .add 1704240000000
     { userId := "a1", description := some "swim", duration := some "45",
       date := some "2024-01-02" }]

/-- The record of alice at the end of `sampleSession`. -/
def aliceAfterSession : User :=
  { username := "alice", userId := "a1", count := 2, log := [runEntry, swimEntry] }

/-- An add request for alice whose duration is 2^53 + 1 and whose date is empty. -/
def bigDurationBody : AddBody :=
  { userId := "a1", description := some "walk", duration := some "9007199254740993",
    date := some "" }

/-- The digit 1 followed by 309 zeros: the number 10^309, above every double. -/
def hugeDuration : String :=
  String.mk ('1' :: List.replicate 309 '0')

/-- An add request for alice whose duration is 10^309 and whose date is empty. -/
def hugeDurationBody : AddBody :=
  { userId := "a1", description := some "climb", duration := some hugeDuration,
    date := some "" }

/-- An add request for alice whose duration is the string "0" and whose date is empty. -/
def zeroDurationBody : AddBody :=
  { userId := "a1", description := some "rest", duration := some "0", date := some "" }

/-! ## Lemmas on the store -/

theorem findOne_eq_none_iff (p : User → Bool) (store : Store) :
    findOne p store = none ↔ ∀ u ∈ store, p u = false := by
  induction store with
  | nil => simp [findOne]
  | cons u rest ih =>
    by_cases hp : p u = true
    · simp [findOne, hp]
    · simp [findOne, hp, ih]

theorem findOne_some_spec (p : User → Bool) (store : Store) (i : Nat) (user : User)
    (h : findOne p store = some (i, user)) :
    store[i]? = some user ∧ p user = true ∧
      ∀ j, j < i → ∀ v, store[j]? = some v → p v = false := by
  induction store generalizing i with
  | nil => simp [findOne] at h
  | cons u rest ih =>
    by_cases hp : p u = true
    · simp only [findOne, hp, if_true, Option.some.injEq, Prod.mk.injEq] at h
      obtain ⟨hi, hu⟩ := h
      subst hi hu
      exact ⟨by simp, hp, fun j hj => absurd hj (Nat.not_lt_zero j)⟩
    · cases hf : findOne p rest with
      | none => simp [findOne, hp, hf] at h
      | some r =>
        simp only [findOne, hp, Bool.false_eq_true, if_false, hf, Option.map_some,
          Option.some.injEq, Prod.mk.injEq] at h
        obtain ⟨k, w⟩ := r
        cases h
        obtain ⟨h1, h2, h3⟩ := ih k hf
        refine ⟨by simpa using h1, h2, ?_⟩
        intro j hj v hv
        cases j with
        | zero =>
          simp only [List.getElem?_cons_zero, Option.some.injEq] at hv
          subst hv
          simpa using hp
        | succ j =>
          simp only [List.getElem?_cons_succ] at hv
          exact h3 j (by omega) v hv

theorem findOne_mem (p : User → Bool) (store : Store) (i : Nat) (user : User)
    (h : findOne p store = some (i, user)) : user ∈ store :=
  List.getElem?_mem (findOne_some_spec p store i user h).1

theorem findOne_of_exists (p : User → Bool) (store : Store) (h : ∃ u ∈ store, p u = true) :
    ∃ i user, findOne p store = some (i, user) := by
  cases hf : findOne p store with
  | none =>
    obtain ⟨u, hu, hp⟩ := h
    have := (findOne_eq_none_iff p store).1 hf u hu
    simp [hp] at this
  | some r => exact ⟨r.1, r.2, rfl⟩

/-! ## The Number cast of a duration -/

/-- The cast drops leading zeros, rounds 2^53 + 1 to the even neighbour 2^53, keeps the
largest double, and yields Infinity from the midpoint above it and for 10^309. -/
theorem castNumber_examples :
    castNumber "007" = .finite 7 ∧
    castNumber "9007199254740993" = .finite 9007199254740992 ∧
    roundToDouble (2 ^ 1024 - 2 ^ 971) = .finite (2 ^ 1024 - 2 ^ 971) ∧
    roundToDouble (2 ^ 1024 - 2 ^ 970 - 1) = .finite (2 ^ 1024 - 2 ^ 971) ∧
    roundToDouble (2 ^ 1024 - 2 ^ 970) = .infinity ∧
    castNumber hugeDuration = .infinity := by
  decide!

/-- Below 2^53 the cast is exact. -/
theorem roundToDouble_of_lt (n : Nat) (h : n < 2 ^ 53) : roundToDouble n = .finite n := by
  unfold roundToDouble
  rw [if_pos h]

/-! ## The branches of the add handler -/

theorem postAdd_of_not_found (rt : Runtime) (now : Int) (store : Store) (body : AddBody)
    (h : findOne (fun u => u.userId == body.userId) store = none) :
    postAdd rt now store body = (.msg "No user found...", store) := by
  simp [postAdd, h]

theorem postAdd_of_missing (rt : Runtime) (now : Int) (store : Store) (body : AddBody)
    (i : Nat) (user : User)
    (h : findOne (fun u => u.userId == body.userId) store = some (i, user))
    (hm : missingFields body ≠ []) :
    postAdd rt now store body = (.missing (missingFields body), store) := by
  have : 0 < (missingFields body).length := List.length_pos.2 hm
  simp [postAdd, h, this]

theorem postAdd_of_error (rt : Runtime) (now : Int) (store : Store) (body : AddBody)
    (i : Nat) (user : User)
    (h : findOne (fun u => u.userId == body.userId) store = some (i, user))
    (hm : missingFields body = []) (he : validationErrors rt body ≠ []) :
    postAdd rt now store body = (.error (validationErrors rt body), store) := by
  have : 0 < (validationErrors rt body).length := List.length_pos.2 he
  simp [postAdd, h, hm, this]

theorem postAdd_of_valid (rt : Runtime) (now : Int) (store : Store) (body : AddBody)
    (i : Nat) (user : User)
    (h : findOne (fun u => u.userId == body.userId) store = some (i, user))
    (hm : missingFields body = []) (he : validationErrors rt body = []) :
    postAdd rt now store body =
      (.added user.username user.userId (body.description.getD "") (body.duration.getD "")
          (addedDate rt now body.date),
       store.set i
        { user with
          count := user.count + 1
          log := user.log ++
            [{ description := body.description.getD "",
               duration := castNumber (body.duration.getD ""),
               date := storedDate rt now body.date }] }) := by
  simp [postAdd, h, hm, he, save]

theorem missingFields_eq_nil_iff (body : AddBody) :
    missingFields body = [] ↔ falsy body.description = false ∧ falsy body.duration = false := by
  cases h1 : falsy body.description <;> cases h2 : falsy body.duration <;>
    simp [missingFields, h1, h2]

theorem falsy_some (s : String) : falsy (some s) = false ↔ s ≠ "" := by
  simp [falsy]

/-! ## Adding an entry -/

/-- C1, refuted as stated: alice adds an entry whose duration is 2^53 + 1, written
"9007199254740993". The request passes validation and one entry is appended, but
the duration it carries is 9007199254740992, the nearest double, not the duration
of the request. -/
theorem postAdd_stores_rounded_duration :
    postAdd sampleRuntime 7 sampleStore bigDurationBody =
      (.added "alice" "a1" "walk" "9007199254740993" (sampleRuntime.formatDate 7),
       [{ alice with
          count := 1
          log := [{ description := "walk", duration := .finite 9007199254740992,
                    date := 7 }] }, bob, carol]) ∧
    durationValue "9007199254740993" = 9007199254740993 ∧
    JsNumber.finite 9007199254740992 ≠ .finite (durationValue "9007199254740993") := by
  decide!

/-- C1, as the code has it. In a store that holds a user with the request's userId, an
add request whose description is present (sent and not the empty string, so that
line 68 does not report it missing) with at most 48 characters (UTF-16 code units,
as `.length` counts), whose duration is a digits-only string and whose date is the
empty string or a string that parses, is answered with the added entry and rewrites
the first record with that userId: its count is the old count plus 1 and its log is
the old log with one entry appended at the end, carrying the request's description
and the Number its duration is cast to, which is the duration itself whenever that
is below 2^53. The store keeps its length and every other record is unchanged. -/
theorem postAdd_valid_increments_count_and_appends (rt : Runtime) (now : Int)
    (store : Store) (body : AddBody) (description duration date : String)
    (huser : ∃ u ∈ store, u.userId = body.userId)
    (hdescription : body.description = some description) (hpresent : description ≠ "")
    (hlength : jsLength description ≤ 48)
    (hduration : body.duration = some duration) (hdigits : digitsOnly duration = true)
    (hdate : body.date = some date)
    (hparse : date = "" ∨ (rt.parseDate date).isSome = true) :
    ∃ (i : Nat) (user : User) (entry : Exercise),
      store[i]? = some user ∧ user.userId = body.userId ∧
      (∀ j, j < i → ∀ v, store[j]? = some v → v.userId ≠ body.userId) ∧
      entry.description = description ∧ entry.duration = castNumber duration ∧
      (durationValue duration < 2 ^ 53 → entry.duration = .finite (durationValue duration)) ∧
      (postAdd rt now store body).1 =
        .added user.username user.userId description duration (addedDate rt now body.date) ∧
      (postAdd rt now store body).2.length = store.length ∧
      (postAdd rt now store body).2[i]? =
        some { user with count := user.count + 1, log := user.log ++ [entry] } ∧
      ∀ j, j ≠ i → (postAdd rt now store body).2[j]? = store[j]? := by
  obtain ⟨i, user, hfind⟩ :=
    findOne_of_exists (fun u => u.userId == body.userId) store
      (by obtain ⟨u, hu, he⟩ := huser; exact ⟨u, hu, by simpa using he⟩)
  obtain ⟨hget, hp, hfirst⟩ := findOne_some_spec _ store i user hfind
  have hne : duration ≠ "" := by
    intro h
    subst h
    simp [digitsOnly] at hdigits
  have hm : missingFields body = [] := by
    rw [missingFields_eq_nil_iff, hdescription, hduration, falsy_some, falsy_some]
    exact ⟨hpresent, hne⟩
  have he : validationErrors rt body = [] := by
    have h48 : ¬ 48 < jsLength description := by omega
    rcases hparse with h | h
    · subst h
      simp [validationErrors, hdescription, hduration, hdate, hdigits, h48]
    · by_cases hd : date = ""
      · subst hd
        simp [validationErrors, hdescription, hduration, hdate, hdigits, h48]
      · simp [validationErrors, hdescription, hduration, hdate, hdigits, h48, isDate, h]
  have hlt : i < store.length := by
    rcases Nat.lt_or_ge i store.length with h | h
    · exact h
    · rw [List.getElem?_eq_none h] at hget
      cases hget
  rw [postAdd_of_valid rt now store body i user hfind hm he]
  refine ⟨i, user, ⟨description, castNumber duration, storedDate rt now body.date⟩, hget,
    by simpa using hp, ?_, rfl, rfl, ?_, ?_, ?_, ?_, ?_⟩
  · intro j hj v hv
    simpa using hfirst j hj v hv
  · intro hsmall
    show castNumber duration = _
    unfold castNumber roundToDouble
    rw [if_pos hsmall]
  · simp [hdescription, hduration]
  · simp
  · simp [hdescription, hduration, hlt]
  · intro j hj
    simp [List.getElem?_set_ne (Ne.symm hj)]

/-- C1 as the code has it, at an example: the store is `[alice, bob, carol]` and carol gets a second entry. -/
theorem postAdd_valid_increments_count_and_appends_witness :
    ∃ (i : Nat) (user : User) (entry : Exercise),
      sampleStore[i]? = some user ∧ user.userId = "c3" ∧
      (∀ j, j < i → ∀ v, sampleStore[j]? = some v → v.userId ≠ "c3") ∧
      entry.description = "swim" ∧ entry.duration = castNumber "45" ∧
      (durationValue "45" < 2 ^ 53 → entry.duration = .finite (durationValue "45")) ∧
      (postAdd sampleRuntime 7 sampleStore
          { userId := "c3", description := some "swim", duration := some "45",
            date := some "2024-01-02" }).1 =
        .added user.username user.userId "swim" "45"
          (addedDate sampleRuntime 7 (some "2024-01-02")) ∧
      (postAdd sampleRuntime 7 sampleStore
          { userId := "c3", description := some "swim", duration := some "45",
            date := some "2024-01-02" }).2.length = sampleStore.length ∧
      (postAdd sampleRuntime 7 sampleStore
          { userId := "c3", description := some "swim", duration := some "45",
            date := some "2024-01-02" }).2[i]? =
        some { user with count := user.count + 1, log := user.log ++ [entry] } ∧
      ∀ j, j ≠ i →
        (postAdd sampleRuntime 7 sampleStore
          { userId := "c3", description := some "swim", duration := some "45",
            date := some "2024-01-02" }).2[j]? = sampleStore[j]? :=
  postAdd_valid_increments_count_and_appends sampleRuntime 7 sampleStore
    { userId := "c3", description := some "swim", duration := some "45",
      date := some "2024-01-02" }
    "swim" "45" "2024-01-02" ⟨carol, by decide, by decide⟩ rfl (by decide) (by decide) rfl
    (by decide) rfl (Or.inr (by decide))

/-- C10. When no record of the store has the request's userId, the add handler
answers with the message "No user found..." and returns the store as it was,
whatever the description, duration and date fields are. -/
theorem postAdd_unknown_user (rt : Runtime) (now : Int) (store : Store) (body : AddBody)
    (hnone : ∀ u ∈ store, u.userId ≠ body.userId) :
    postAdd rt now store body = (.msg "No user found...", store) := by
  apply postAdd_of_not_found
  rw [findOne_eq_none_iff]
  intro u hu
  simpa using hnone u hu

/-- C10, at an example: nobody in the store has the id "zz", and the request lacks
every other field. -/
theorem postAdd_unknown_user_witness :
    postAdd sampleRuntime 7 sampleStore
        { userId := "zz", description := none, duration := none, date := none } =
      (.msg "No user found...", sampleStore) :=
  postAdd_unknown_user sampleRuntime 7 sampleStore
    { userId := "zz", description := none, duration := none, date := none } (by decide)

/-- C7. For an existing user and an add request whose description and duration are
both present (sent and not empty, so that line 70 does not answer Missing), there is
a list L of messages, drawn in this order from "Description is too long", "Duration
should be number only", "Date entry is invalid", in which each message occurs exactly
when its own check fails: the description has more than 48 characters (UTF-16 code
units); the duration is not a digits-only string; the date is not the empty string
and does not parse (a date that was not sent does not parse). When L is not empty the
answer is the Error response carrying L and the store is unchanged; when L is empty
the entry is added. A description of 49 characters makes L non-empty, and one of 48
characters keeps the description message out of L. -/
theorem postAdd_validation_checks_independent (rt : Runtime) (now : Int) (store : Store)
    (body : AddBody) (description duration : String)
    (huser : ∃ u ∈ store, u.userId = body.userId)
    (hdescription : body.description = some description) (hpresent : description ≠ "")
    (hduration : body.duration = some duration) (hsent : duration ≠ "") :
    ∃ L : List String,
      L.Sublist
        ["Description is too long", "Duration should be number only",
         "Date entry is invalid"] ∧
      ("Description is too long" ∈ L ↔ 48 < jsLength description) ∧
      ("Duration should be number only" ∈ L ↔ digitsOnly duration = false) ∧
      ("Date entry is invalid" ∈ L ↔
        (body.date ≠ some "" ∧ ∀ s, body.date = some s → rt.parseDate s = none)) ∧
      (L ≠ [] → postAdd rt now store body = (.error L, store)) ∧
      (L = [] → ∃ username id date,
        (postAdd rt now store body).1 = .added username id description duration date) ∧
      (jsLength description = 49 → L ≠ []) ∧
      (jsLength description = 48 → "Description is too long" ∉ L) := by
  obtain ⟨i, user, hfind⟩ :=
    findOne_of_exists (fun u => u.userId == body.userId) store
      (by obtain ⟨u, hu, he⟩ := huser; exact ⟨u, hu, by simpa using he⟩)
  have hm : missingFields body = [] := by
    rw [missingFields_eq_nil_iff, hdescription, hduration, falsy_some, falsy_some]
    exact ⟨hpresent, hsent⟩
  have hdateIff : (body.date != some "" && !isDate rt body.date) = true ↔
      (body.date ≠ some "" ∧ ∀ s, body.date = some s → rt.parseDate s = none) := by
    cases hd : body.date with
    | none => simp [isDate]
    | some s => simp [isDate]
  refine ⟨validationErrors rt body, ?_, ?_, ?_, ?_, ?_, ?_, ?_, ?_⟩
  · simp only [validationErrors]
    split_ifs <;> simp
  · simp only [validationErrors, hdescription, Option.getD_some]
    split_ifs <;> simp_all
  · simp only [validationErrors, hduration, Option.getD_some]
    split_ifs <;> simp_all
  · rw [← hdateIff]
    simp only [validationErrors]
    split_ifs <;> simp_all
  · intro hne
    exact postAdd_of_error rt now store body i user hfind hm hne
  · intro hnil
    rw [postAdd_of_valid rt now store body i user hfind hm hnil]
    exact ⟨user.username, user.userId, addedDate rt now body.date, by
      simp [hdescription, hduration]⟩
  · intro h49
    simp only [validationErrors, hdescription, Option.getD_some, h49]
    split_ifs <;> simp_all
  · intro h48
    simp only [validationErrors, hdescription, Option.getD_some, h48]
    split_ifs <;> simp_all

/-- C7, at an example: a request with a 49-character description, the duration "3x"
and the date "soon". -/
theorem postAdd_validation_checks_independent_witness :
    ∃ L : List String,
      L.Sublist
        ["Description is too long", "Duration should be number only",
         "Date entry is invalid"] ∧
      ("Description is too long" ∈ L ↔ 48 < jsLength longDescription) ∧
      ("Duration should be number only" ∈ L ↔ digitsOnly "3x" = false) ∧
      ("Date entry is invalid" ∈ L ↔
        (rejectedBody.date ≠ some "" ∧
          ∀ s, rejectedBody.date = some s → sampleRuntime.parseDate s = none)) ∧
      (L ≠ [] → postAdd sampleRuntime 7 sampleStore rejectedBody = (.error L, sampleStore)) ∧
      (L = [] → ∃ username id date,
        (postAdd sampleRuntime 7 sampleStore rejectedBody).1 =
          .added username id longDescription "3x" date) ∧
      (jsLength longDescription = 49 → L ≠ []) ∧
      (jsLength longDescription = 48 → "Description is too long" ∉ L) :=
  postAdd_validation_checks_independent sampleRuntime 7 sampleStore rejectedBody
    longDescription "3x" ⟨alice, by decide, by decide⟩ rfl (by decide) rfl (by decide)

/-- C6. A request for an existing user with the description "run", the duration "30"
and no date field is answered, on every runtime and at every moment, with the Error
response "Date entry is invalid", and nothing is stored: `new Date(undefined)` is
an Invalid Date and `undefined !== ''` holds on line 80. -/
theorem postAdd_without_date_is_rejected (rt : Runtime) (now : Int) :
    postAdd rt now sampleStore noDateBody =
      (.error ["Date entry is invalid"], sampleStore) := by
  have hfind : findOne (fun u => u.userId == noDateBody.userId) sampleStore =
      some (0, alice) := by decide
  have hm : missingFields noDateBody = [] := by decide
  have he : validationErrors rt noDateBody = ["Date entry is invalid"] := by
    have h1 : ¬ 48 < jsLength "run" := by decide
    have h2 : digitsOnly "30" = true := by decide
    simp [validationErrors, noDateBody, isDate, h1, h2]
  have := postAdd_of_error rt now sampleStore noDateBody 0 alice hfind hm (by simp [he])
  rw [this, he]

/-- C8, refuted as stated: the duration "0" is digits-only, denotes 0, which is not
greater than 0, and the request carrying it is added to alice's log with the
duration 0; and the duration 10^309, digits-only as well, is added with the duration
Infinity, which is no integer. -/
theorem postAdd_accepts_zero_duration :
    (postAdd sampleRuntime 7 sampleStore zeroDurationBody =
      (.added "alice" "a1" "rest" "0" (sampleRuntime.formatDate 7),
       [{ alice with
          count := 1
          log := [{ description := "rest", duration := .finite 0, date := 7 }] },
        bob, carol]) ∧
      ¬ 0 < durationValue "0") ∧
    (postAdd sampleRuntime 7 sampleStore hugeDurationBody =
      (.added "alice" "a1" "climb" hugeDuration (sampleRuntime.formatDate 7),
       [{ alice with
          count := 1
          log := [{ description := "climb", duration := .infinity, date := 7 }] },
        bob, carol])) := by
  decide!

/-! ## Invariants of the store -/

theorem postAdd_store_cases (rt : Runtime) (now : Int) (store : Store) (body : AddBody) :
    (postAdd rt now store body).2 = store ∨
    ∃ i user, user ∈ store ∧ validationErrors rt body = [] ∧
      (postAdd rt now store body).2 =
        store.set i
          { user with
            count := user.count + 1
            log := user.log ++
              [{ description := body.description.getD "",
                 duration := castNumber (body.duration.getD ""),
                 date := storedDate rt now body.date }] } := by
  cases hfind : findOne (fun u => u.userId == body.userId) store with
  | none => exact Or.inl (by rw [postAdd_of_not_found rt now store body hfind])
  | some r =>
    obtain ⟨i, user⟩ := r
    by_cases hm : missingFields body = []
    · by_cases he : validationErrors rt body = []
      · exact Or.inr ⟨i, user, findOne_mem _ store i user hfind, he, by
          rw [postAdd_of_valid rt now store body i user hfind hm he]⟩
      · exact Or.inl (by rw [postAdd_of_error rt now store body i user hfind hm he])
    · exact Or.inl (by rw [postAdd_of_missing rt now store body i user hfind hm])

theorem postNewUser_store_cases (store : Store) (username freshId : String) :
    (postNewUser store username freshId).2 = store ∨
    (postNewUser store username freshId).2 =
      store ++ [{ username := username, userId := freshId, count := 0, log := [] }] := by
  unfold postNewUser
  by_cases h : (username == "") = true
  · simp [h]
  · cases hf : findOne (fun u => u.username == username) store <;> simp [h]

theorem validationErrors_nil_digitsOnly (rt : Runtime) (body : AddBody)
    (h : validationErrors rt body = []) : digitsOnly (body.duration.getD "") = true := by
  by_contra hd
  simp only [validationErrors] at h
  split_ifs at h <;> simp_all

/-- A property of records that holds of a fresh record and survives the update made by
an accepted add holds of every record after any request. -/
theorem serve_preserves (rt : Runtime) (P : User → Prop)
    (hnew : ∀ username freshId,
      P { username := username, userId := freshId, count := 0, log := [] })
    (hadd : ∀ (now : Int) (body : AddBody) (user : User), P user →
      validationErrors rt body = [] →
      P { user with
          count := user.count + 1
          log := user.log ++
            [{ description := body.description.getD "",
               duration := castNumber (body.duration.getD ""),
               date := storedDate rt now body.date }] })
    (store : Store) (req : Request) (hstore : ∀ u ∈ store, P u) :
    ∀ u ∈ (serve rt store req).2, P u := by
  cases req with
  | newUser username freshId =>
    rcases postNewUser_store_cases store username freshId with h | h
    · simpa [serve, h] using hstore
    · intro u hu
      simp only [serve, h, List.mem_append, List.mem_singleton] at hu
      rcases hu with hu | hu
      · exact hstore u hu
      · subst hu
        exact hnew username freshId
  | add now body =>
    rcases postAdd_store_cases rt now store body with h | ⟨i, user, hmem, he, h⟩
    · simpa [serve, h] using hstore
    · intro u hu
      simp only [serve, h] at hu
      rcases List.mem_or_eq_of_mem_set hu with hu | hu
      · exact hstore u hu
      · subst hu
        exact hadd now body user (hstore user hmem) he
  | log query => simpa [serve] using hstore

theorem run_preserves (rt : Runtime) (P : User → Prop)
    (hnew : ∀ username freshId,
      P { username := username, userId := freshId, count := 0, log := [] })
    (hadd : ∀ (now : Int) (body : AddBody) (user : User), P user →
      validationErrors rt body = [] →
      P { user with
          count := user.count + 1
          log := user.log ++
            [{ description := body.description.getD "",
               duration := castNumber (body.duration.getD ""),
               date := storedDate rt now body.date }] })
    (reqs : List Request) (store : Store) (hstore : ∀ u ∈ store, P u) :
    ∀ u ∈ run rt store reqs, P u := by
  induction reqs generalizing store with
  | nil => simpa [run] using hstore
  | cons req rest ih =>
    have := ih (serve rt store req).2 (serve_preserves rt P hnew hadd store req hstore)
    simpa [run] using this

/-- C2. In the store reached from the empty store by any sequence of new-user, add and
log-query requests, every record has count equal to the number of entries of its
log. -/
theorem run_count_eq_log_length (rt : Runtime) (reqs : List Request) (u : User)
    (hu : u ∈ run rt [] reqs) : u.count = u.log.length := by
  refine run_preserves rt (fun v => v.count = v.log.length) ?_ ?_ reqs [] ?_ u hu
  · intro username freshId
    rfl
  · intro now body user h _
    simp [h]
  · intro v hv
    cases hv

/-- C2, at an example: alice's record after `sampleSession`. -/
theorem run_count_eq_log_length_witness :
    aliceAfterSession ∈ run sampleRuntime [] sampleSession ∧
      aliceAfterSession.count = aliceAfterSession.log.length :=
  ⟨by decide, run_count_eq_log_length sampleRuntime sampleSession aliceAfterSession (by decide)⟩

/-- C8, as the code has it. The add handler accepts a duration only if it denotes a
non-negative integer: on every store, a request that is answered with the added
entry has a digits-only duration, whose numeric value is 0 or more; so every
duration stored in a log entry of a store reached from the empty store is the Number
that a digits-only string is cast to, a non-negative integer or Infinity. -/
theorem postAdd_accepts_only_digit_durations (rt : Runtime) (reqs : List Request) (now : Int)
    (store : Store) (body : AddBody) (username id description duration date : String) :
    (∀ u ∈ run rt [] reqs, ∀ e ∈ u.log,
      ∃ d, digitsOnly d = true ∧ e.duration = roundToDouble (durationValue d)) ∧
    ((postAdd rt now store body).1 = .added username id description duration date →
      body.duration = some duration ∧ digitsOnly duration = true ∧
        0 ≤ durationValue duration) := by
  constructor
  · refine run_preserves rt
      (fun v => ∀ e ∈ v.log,
        ∃ d, digitsOnly d = true ∧ e.duration = roundToDouble (durationValue d)) ?_ ?_ reqs [] ?_
    · intro username freshId e he
      cases he
    · intro now body user h hv e he
      simp only [List.mem_append, List.mem_singleton] at he
      rcases he with he | he
      · exact h e he
      · subst he
        exact ⟨body.duration.getD "", validationErrors_nil_digitsOnly rt body hv, rfl⟩
    · intro v hv
      cases hv
  · intro hadded
    cases hfind : findOne (fun u => u.userId == body.userId) store with
    | none =>
      rw [postAdd_of_not_found rt now store body hfind] at hadded
      cases hadded
    | some r =>
      obtain ⟨i, user⟩ := r
      by_cases hm : missingFields body = []
      · by_cases he : validationErrors rt body = []
        · rw [postAdd_of_valid rt now store body i user hfind hm he] at hadded
          simp only [AddResponse.added.injEq] at hadded
          obtain ⟨_, _, _, hdur, _⟩ := hadded
          have hd := validationErrors_nil_digitsOnly rt body he
          rw [hdur] at hd
          have hsome : body.duration = some duration := by
            cases hb : body.duration with
            | none =>
              rw [missingFields_eq_nil_iff, hb] at hm
              simp [falsy] at hm
            | some d =>
              rw [hb] at hdur
              simpa using hdur
          exact ⟨hsome, hd, Nat.zero_le _⟩
        · rw [postAdd_of_error rt now store body i user hfind hm he] at hadded
          cases hadded
      · rw [postAdd_of_missing rt now store body i user hfind hm] at hadded
        cases hadded

/-- C8 as the code has it, at an example: the request with duration "0". -/
theorem postAdd_accepts_only_digit_durations_witness :
    zeroDurationBody.duration = some "0" ∧ digitsOnly "0" = true ∧ 0 ≤ durationValue "0" :=
  (postAdd_accepts_only_digit_durations sampleRuntime sampleSession 7 sampleStore
    zeroDurationBody "alice" "a1" "rest" "0" (sampleRuntime.formatDate 7)).2 (by decide)

/-! ## Registering a user -/

/-- C9. For a non-empty username that no record of the store carries, two new-user
requests with that username in a row behave as follows: the first answers with the
username and the generated id and appends one record with count 0 and an empty log;
the second answers "Username already taken..." and leaves the store as the first
left it; afterwards exactly one record of the store carries the username. -/
theorem postNewUser_twice (store : Store) (username id1 id2 : String)
    (hname : username ≠ "") (hfresh : ∀ u ∈ store, u.username ≠ username) :
    (postNewUser store username id1).1 = .created username id1 ∧
    (postNewUser store username id1).2 =
      store ++ [{ username := username, userId := id1, count := 0, log := [] }] ∧
    (postNewUser (postNewUser store username id1).2 username id2).1 =
      .text "Username already taken..." ∧
    (postNewUser (postNewUser store username id1).2 username id2).2 =
      (postNewUser store username id1).2 ∧
    (postNewUser (postNewUser store username id1).2 username id2).2.filter
        (fun u => u.username == username) =
      [{ username := username, userId := id1, count := 0, log := [] }] := by
  have hnone : findOne (fun u => u.username == username) store = none := by
    rw [findOne_eq_none_iff]
    intro u hu
    simpa using hfresh u hu
  have hfirst : postNewUser store username id1 =
      (.created username id1,
       store ++ [{ username := username, userId := id1, count := 0, log := [] }]) := by
    simp [postNewUser, hname, hnone]
  obtain ⟨i, user, hsome⟩ :=
    findOne_of_exists (fun u => u.username == username)
      (store ++ [{ username := username, userId := id1, count := 0, log := [] }])
      ⟨{ username := username, userId := id1, count := 0, log := [] }, by simp, by simp⟩
  have hsecond :
      postNewUser (store ++ [{ username := username, userId := id1, count := 0, log := [] }])
        username id2 =
      (.text "Username already taken...",
       store ++ [{ username := username, userId := id1, count := 0, log := [] }]) := by
    simp [postNewUser, hname, hsome]
  have hfilter : store.filter (fun u => u.username == username) = [] := by
    rw [List.filter_eq_nil_iff]
    intro u hu
    simpa using hfresh u hu
  rw [hfirst]
  dsimp only
  rw [hsecond]
  refine ⟨rfl, rfl, rfl, rfl, ?_⟩
  simp [List.filter_append, hfilter]

/-- C9, at an example: "dave" registers twice in the store `[alice, bob, carol]`. -/
theorem postNewUser_twice_witness :
    (postNewUser sampleStore "dave" "d4").1 = .created "dave" "d4" ∧
    (postNewUser sampleStore "dave" "d4").2 =
      sampleStore ++ [{ username := "dave", userId := "d4", count := 0, log := [] }] ∧
    (postNewUser (postNewUser sampleStore "dave" "d4").2 "dave" "e5").1 =
      .text "Username already taken..." ∧
    (postNewUser (postNewUser sampleStore "dave" "d4").2 "dave" "e5").2 =
      (postNewUser sampleStore "dave" "d4").2 ∧
    (postNewUser (postNewUser sampleStore "dave" "d4").2 "dave" "e5").2.filter
        (fun u => u.username == "dave") =
      [{ username := "dave", userId := "d4", count := 0, log := [] }] :=
  postNewUser_twice sampleStore "dave" "d4" "e5" (by decide) (by decide)

/-! ## The sort of the runtime model -/

theorem insertAt_perm {α : Type} (i : Nat) (pivot : α) (a : List α) :
    (insertAt i pivot a).Perm (pivot :: a) := by
  have h : (a.take i ++ pivot :: a.drop i).Perm (pivot :: (a.take i ++ a.drop i)) :=
    List.perm_middle
  rw [List.take_append_drop] at h
  exact h

theorem binaryInsertionSort_perm {α : Type} (comparefn : α → α → Int) (rest sortedRun : List α) :
    (binaryInsertionSort comparefn sortedRun rest).Perm (sortedRun ++ rest) := by
  induction rest generalizing sortedRun with
  | nil => simp [binaryInsertionSort]
  | cons pivot rest ih =>
    have hstep := ih
      (insertAt (searchPosition comparefn pivot sortedRun (sortedRun.length + 1) 0
        sortedRun.length) pivot sortedRun)
    have hins := insertAt_perm
      (searchPosition comparefn pivot sortedRun (sortedRun.length + 1) 0 sortedRun.length)
      pivot sortedRun
    have hmid : (pivot :: sortedRun ++ rest).Perm (sortedRun ++ pivot :: rest) :=
      (List.perm_middle).symm
    simp only [binaryInsertionSort, List.foldl_cons] at hstep ⊢
    exact hstep.trans ((hins.append_right rest).trans hmid)

/-- The sort of the runtime model rearranges its input, whatever the comparefn. -/
theorem v8Sort_perm {α : Type} (comparefn : α → α → Int) (a : List α) :
    (v8Sort comparefn a).Perm a := by
  unfold v8Sort
  split_ifs with hlen
  · exact List.Perm.refl a
  · have hrun :
        (if (countAndMakeRun comparefn a).2 then
            (a.take (countAndMakeRun comparefn a).1).reverse
          else a.take (countAndMakeRun comparefn a).1).Perm
          (a.take (countAndMakeRun comparefn a).1) := by
      split_ifs
      · exact List.reverse_perm _
      · exact List.Perm.refl _
    have h := binaryInsertionSort_perm comparefn (a.drop (countAndMakeRun comparefn a).1)
      (if (countAndMakeRun comparefn a).2 then
          (a.take (countAndMakeRun comparefn a).1).reverse
        else a.take (countAndMakeRun comparefn a).1)
    have h2 := hrun.append_right (a.drop (countAndMakeRun comparefn a).1)
    rw [List.take_append_drop] at h2
    exact h.trans h2

theorem compareFn_not_neg (a b : Exercise) : ¬ compareFn a b < 0 := by
  unfold compareFn
  split
  · split_ifs <;> decide
  · decide

theorem continueRun_compareFn (previous : Exercise) (rest : List Exercise) :
    continueRun compareFn false previous rest = rest.length := by
  induction rest generalizing previous with
  | nil => rfl
  | cons current rest ih =>
    simp [continueRun, compareFn_not_neg, ih]

/-- With the comparefn of the log handler, which never returns a negative number, the
sort of the runtime model leaves every array as it is. -/
theorem v8Sort_compareFn (a : List Exercise) : v8Sort compareFn a = a := by
  unfold v8Sort
  split_ifs with hlen
  · rfl
  · match a, hlen with
    | [], h => simp at h
    | [_], h => simp at h
    | first :: second :: rest, _ =>
      simp [countAndMakeRun, compareFn_not_neg, continueRun_compareFn, binaryInsertionSort]

/-- With a comparefn that returns the difference of the two dates, the same sort puts
bob's two entries in ascending order of date. -/
theorem v8Sort_numericCompareFn_example :
    v8Sort numericCompareFn [swimEntry, runEntry] = [runEntry, swimEntry] := by
  decide

/-! ## The sort of the runtime model is a stable sort for a numeric comparefn -/

theorem pairwise_getElem? {α : Type} (key : α → Int) (a : List α)
    (hsorted : a.Pairwise (fun x y => key x ≤ key y)) (j1 j2 : Nat) (x y : α)
    (hlt : j1 < j2) (h1 : a[j1]? = some x) (h2 : a[j2]? = some y) : key x ≤ key y := by
  obtain ⟨hj1, rfl⟩ := List.getElem?_eq_some.1 h1
  obtain ⟨hj2, rfl⟩ := List.getElem?_eq_some.1 h2
  exact List.pairwise_iff_getElem.1 hsorted j1 j2 hj1 hj2 hlt

theorem searchPosition_spec {α : Type} (comparefn : α → α → Int) (key : α → Int)
    (hcmp : ∀ x y, comparefn x y < 0 ↔ key x < key y) (pivot : α) (a : List α)
    (hsorted : a.Pairwise (fun x y => key x ≤ key y)) (fuel left right : Nat)
    (hfuel : right - left < fuel) (hlr : left ≤ right) (hr : right ≤ a.length)
    (hleft : ∀ j x, j < left → a[j]? = some x → key x ≤ key pivot)
    (hright : ∀ j x, right ≤ j → a[j]? = some x → key pivot < key x) :
    (∀ j x, j < searchPosition comparefn pivot a fuel left right → a[j]? = some x →
      key x ≤ key pivot) ∧
    (∀ j x, searchPosition comparefn pivot a fuel left right ≤ j → a[j]? = some x →
      key pivot < key x) := by
  induction fuel generalizing left right with
  | zero => omega
  | succ fuel ih =>
    unfold searchPosition
    by_cases hlt : left < right
    · have hmid : left + (right - left) / 2 < a.length := by omega
      simp only [hlt, if_true, List.get?_eq_getElem?, List.getElem?_eq_getElem hmid]
      by_cases hc : comparefn pivot a[left + (right - left) / 2] < 0
      · simp only [hc, if_true]
        refine ih left (left + (right - left) / 2) (by omega) (by omega) (by omega) hleft ?_
        intro j y hj hy
        have hpx := (hcmp _ _).1 hc
        rcases Nat.eq_or_lt_of_le hj with h | h
        · subst h
          rw [List.getElem?_eq_getElem hmid] at hy
          cases hy
          exact hpx
        · have := pairwise_getElem? key a hsorted _ j _ y h
            (List.getElem?_eq_getElem hmid) hy
          omega
      · simp only [hc, if_false]
        refine ih (left + (right - left) / 2 + 1) right (by omega) (by omega) hr ?_ hright
        intro j y hj hy
        have hpx : ¬ key pivot < key a[left + (right - left) / 2] := fun h => hc ((hcmp _ _).2 h)
        rcases Nat.eq_or_lt_of_le (Nat.le_of_lt_succ hj) with h | h
        · subst h
          rw [List.getElem?_eq_getElem hmid] at hy
          cases hy
          omega
        · have := pairwise_getElem? key a hsorted j _ y _ h hy
            (List.getElem?_eq_getElem hmid)
          omega
    · have heq : left = right := by omega
      subst heq
      simp only [hlt, if_false]
      exact ⟨hleft, hright⟩

theorem insertAt_sorted {α : Type} (key : α → Int) (i : Nat) (pivot : α) (a : List α)
    (hsorted : a.Pairwise (fun x y => key x ≤ key y))
    (hle : ∀ j x, j < i → a[j]? = some x → key x ≤ key pivot)
    (hgt : ∀ j x, i ≤ j → a[j]? = some x → key pivot < key x) :
    (insertAt i pivot a).Pairwise (fun x y => key x ≤ key y) := by
  have htake : ∀ x ∈ a.take i, key x ≤ key pivot := by
    intro x hx
    obtain ⟨j, hj⟩ := List.mem_iff_getElem?.1 hx
    rw [List.getElem?_take] at hj
    split_ifs at hj with hji
    exact hle j x hji hj
  have hdrop : ∀ y ∈ a.drop i, key pivot < key y := by
    intro y hy
    obtain ⟨j, hj⟩ := List.mem_iff_getElem?.1 hy
    rw [List.getElem?_drop] at hj
    exact hgt (i + j) y (by omega) hj
  unfold insertAt
  rw [List.pairwise_append, List.pairwise_cons]
  refine ⟨hsorted.sublist (List.take_sublist i a),
    ⟨fun y hy => le_of_lt (hdrop y hy), hsorted.sublist (List.drop_sublist i a)⟩, ?_⟩
  intro x hx y hy
  rcases List.mem_cons.1 hy with h | h
  · subst h
    exact htake x hx
  · exact le_trans (htake x hx) (le_of_lt (hdrop y h))

theorem insertAt_filter {α : Type} (key : α → Int) (k : Int) (i : Nat) (pivot : α) (a : List α)
    (hgt : ∀ j x, i ≤ j → a[j]? = some x → key pivot < key x) :
    (insertAt i pivot a).filter (fun x => decide (key x = k)) =
      (a ++ [pivot]).filter (fun x => decide (key x = k)) := by
  have hsplit : a.filter (fun x => decide (key x = k)) =
      (a.take i).filter (fun x => decide (key x = k)) ++
        (a.drop i).filter (fun x => decide (key x = k)) := by
    rw [← List.filter_append, List.take_append_drop]
  unfold insertAt
  rw [List.filter_append, List.filter_append, hsplit]
  by_cases hk : key pivot = k
  · have hnil : (a.drop i).filter (fun x => decide (key x = k)) = [] := by
      rw [List.filter_eq_nil_iff]
      intro y hy
      obtain ⟨j, hj⟩ := List.mem_iff_getElem?.1 hy
      rw [List.getElem?_drop] at hj
      have := hgt (i + j) y (by omega) hj
      simp only [decide_eq_true_eq]
      omega
    simp [List.filter_cons, hk, hnil]
  · simp [List.filter_cons, hk]

theorem binaryInsertionSort_sorted_stable {α : Type} (comparefn : α → α → Int) (key : α → Int)
    (hcmp : ∀ x y, comparefn x y < 0 ↔ key x < key y) (rest sortedRun : List α)
    (hsorted : sortedRun.Pairwise (fun x y => key x ≤ key y)) :
    (binaryInsertionSort comparefn sortedRun rest).Pairwise (fun x y => key x ≤ key y) ∧
    ∀ k, (binaryInsertionSort comparefn sortedRun rest).filter (fun x => decide (key x = k)) =
      (sortedRun ++ rest).filter (fun x => decide (key x = k)) := by
  induction rest generalizing sortedRun with
  | nil => simpa [binaryInsertionSort] using hsorted
  | cons pivot rest ih =>
    obtain ⟨hle, hgt⟩ := searchPosition_spec comparefn key hcmp pivot sortedRun hsorted
      (sortedRun.length + 1) 0 sortedRun.length (by omega) (by omega) (le_refl _)
      (fun j x hj _ => absurd hj (Nat.not_lt_zero j))
      (fun j x hj hx => by
        rw [List.getElem?_eq_none hj] at hx
        cases hx)
    obtain ⟨h1, h2⟩ := ih _ (insertAt_sorted key _ pivot sortedRun hsorted hle hgt)
    simp only [binaryInsertionSort, List.foldl_cons] at h1 h2 ⊢
    refine ⟨h1, fun k => ?_⟩
    rw [h2 k, List.filter_append, insertAt_filter key k _ pivot sortedRun hgt]
    rw [← List.filter_append, List.append_assoc, List.singleton_append]

theorem continueRun_ascending {α : Type} (comparefn : α → α → Int) (key : α → Int)
    (hcmp : ∀ x y, comparefn x y < 0 ↔ key x < key y) (rest : List α) (previous : α) :
    (previous :: rest.take (continueRun comparefn false previous rest)).Pairwise
      (fun x y => key x ≤ key y) := by
  induction rest generalizing previous with
  | nil => simp [continueRun]
  | cons current rest ih =>
    by_cases hc : comparefn current previous < 0
    · simp [continueRun, hc]
    · have hpc : key previous ≤ key current := by
        have hnlt : ¬ key current < key previous := fun h => hc ((hcmp _ _).2 h)
        omega
      have hrun := ih current
      simp only [continueRun, hc, Bool.false_eq_true, if_false, List.take_succ_cons]
      rw [List.pairwise_cons] at hrun ⊢
      refine ⟨?_, List.pairwise_cons.2 hrun⟩
      intro y hy
      rcases List.mem_cons.1 hy with h | h
      · subst h
        exact hpc
      · exact le_trans hpc (hrun.1 y h)

theorem continueRun_descending {α : Type} (comparefn : α → α → Int) (key : α → Int)
    (hcmp : ∀ x y, comparefn x y < 0 ↔ key x < key y) (rest : List α) (previous : α) :
    (previous :: rest.take (continueRun comparefn true previous rest)).Pairwise
      (fun x y => key y < key x) := by
  induction rest generalizing previous with
  | nil => simp [continueRun]
  | cons current rest ih =>
    by_cases hc : comparefn current previous < 0
    · have hpc : key current < key previous := (hcmp _ _).1 hc
      have hrun := ih current
      have hnot : ¬ comparefn current previous ≥ 0 := by omega
      simp only [continueRun, hnot, if_true, if_false, List.take_succ_cons]
      rw [List.pairwise_cons] at hrun ⊢
      refine ⟨?_, List.pairwise_cons.2 hrun⟩
      intro y hy
      rcases List.mem_cons.1 hy with h | h
      · subst h
        exact hpc
      · exact lt_trans (hrun.1 y h) hpc
    · have hge : comparefn current previous ≥ 0 := by omega
      simp [continueRun, hge]

theorem filter_reverse_of_descending {α : Type} (key : α → Int) (k : Int) (l : List α)
    (h : l.Pairwise (fun x y => key y < key x)) :
    l.reverse.filter (fun x => decide (key x = k)) = l.filter (fun x => decide (key x = k)) := by
  rw [List.filter_reverse]
  have hf := h.filter (fun x => decide (key x = k))
  have hall : ∀ x ∈ l.filter (fun x => decide (key x = k)), key x = k := by
    intro x hx
    simpa using (List.mem_filter.1 hx).2
  match hl : l.filter (fun x => decide (key x = k)) with
  | [] => rfl
  | [_] => rfl
  | x :: y :: tail =>
    rw [hl] at hf hall
    have hxy := (List.pairwise_cons.1 hf).1 y (by simp)
    have hx := hall x (by simp)
    have hy := hall y (by simp)
    omega

/-- For a comparefn that is negative exactly when its first argument has the smaller
key, the sort of the runtime model returns its input in ascending order of key, with
the elements of each key in their original order. -/
theorem v8Sort_sorted_stable {α : Type} (comparefn : α → α → Int) (key : α → Int)
    (hcmp : ∀ x y, comparefn x y < 0 ↔ key x < key y) (a : List α) :
    (v8Sort comparefn a).Pairwise (fun x y => key x ≤ key y) ∧
    ∀ k, (v8Sort comparefn a).filter (fun x => decide (key x = k)) =
      a.filter (fun x => decide (key x = k)) := by
  match a with
  | [] => simp [v8Sort]
  | [x] => simp [v8Sort]
  | first :: second :: rest =>
    have hlen : ¬ (first :: second :: rest).length < 2 := by simp
    simp only [v8Sort, hlen, if_false, countAndMakeRun, List.take_succ_cons, List.drop_succ_cons]
    by_cases hc : comparefn second first < 0
    · have hrun := continueRun_descending comparefn key hcmp (second :: rest) first
      have hnot : ¬ comparefn second first ≥ 0 := by omega
      simp only [continueRun, hnot, if_true, if_false, List.take_succ_cons] at hrun
      simp only [hc, decide_True, if_true]
      have hsorted : (first :: second ::
          rest.take (continueRun comparefn true second rest)).reverse.Pairwise
          (fun x y => key x ≤ key y) := by
        rw [List.pairwise_reverse]
        exact hrun.imp (fun h => le_of_lt h)
      obtain ⟨h1, h2⟩ := binaryInsertionSort_sorted_stable comparefn key hcmp
        (rest.drop (continueRun comparefn true second rest)) _ hsorted
      refine ⟨h1, fun k => ?_⟩
      rw [h2 k, List.filter_append, filter_reverse_of_descending key k _ hrun,
        ← List.filter_append]
      simp [List.take_append_drop]
    · have hrun := continueRun_ascending comparefn key hcmp (second :: rest) first
      simp only [continueRun, hc, Bool.false_eq_true, if_false, List.take_succ_cons] at hrun
      simp only [hc, decide_False, Bool.false_eq_true, if_false]
      obtain ⟨h1, h2⟩ := binaryInsertionSort_sorted_stable comparefn key hcmp
        (rest.drop (continueRun comparefn false second rest)) _ hrun
      refine ⟨h1, fun k => ?_⟩
      rw [h2 k]
      simp [List.take_append_drop]

/-- The numeric comparefn `a.date - b.date` makes the sort of the runtime model an
ascending sort by date. -/
theorem v8Sort_numericCompareFn_sorted (a : List Exercise) :
    (v8Sort numericCompareFn a).Pairwise (fun x y => x.date ≤ y.date) :=
  (v8Sort_sorted_stable numericCompareFn (fun e => e.date)
    (fun x y => by simp only [numericCompareFn]; omega) a).1

/-! ## Querying the log -/

theorem withinBounds_iff (lower upper : Option Int) (t : Int) :
    withinBounds lower upper t = true ↔
      (∀ f, lower = some f → f ≤ t) ∧ (∀ u, upper = some u → t ≤ u) := by
  cases lower <;> cases upper <;> simp [withinBounds]

theorem filterFrom_perm (rt : Runtime) (from_ : Option String) (l l2 : List Exercise)
    (hfrom : ∀ s, from_ = some s → (rt.parseDate s).isSome = true) (h : l.Perm l2) :
    (filterFrom rt from_ l).Perm
      (l2.filter (fun e => withinBounds (from_.bind rt.parseDate) none e.date)) := by
  cases hf : from_ with
  | none => simpa [filterFrom, withinBounds] using h
  | some s =>
    cases hp : rt.parseDate s with
    | none =>
      have := hfrom s hf
      simp [hp] at this
    | some date =>
      simpa [filterFrom, withinBounds, hp] using h.filter _

theorem filterTo_perm (rt : Runtime) (to_ : Option String) (lower : Option Int)
    (l l2 : List Exercise)
    (hto : ∀ s, to_ = some s → (rt.parseDate s).isSome = true)
    (h : l.Perm (l2.filter (fun e => withinBounds lower none e.date))) :
    (filterTo rt to_ l).Perm
      (l2.filter (fun e => withinBounds lower (to_.bind rt.parseDate) e.date)) := by
  cases ht : to_ with
  | none => simpa [filterTo, withinBounds] using h
  | some s =>
    cases hp : rt.parseDate s with
    | none =>
      have := hto s ht
      simp [hp] at this
    | some date =>
      have h2 := h.filter (fun d => decide (d.date ≤ date))
      rw [List.filter_filter] at h2
      simp only [filterTo, hp, Option.some_bind]
      refine h2.trans (List.Perm.of_eq ?_)
      congr 1
      funext e
      cases lower <;> simp [withinBounds, Bool.and_comm]

/-- C3. For an existing user, a log query without limit, and bounds `from` and `to`
that parse as dates whenever they are supplied, on a runtime whose sort rearranges
the array it is given: the answer is the result object of the first record with the
query's userId, and its log is made of exactly the stored entries `e` with
`from <= e.date <= to`, each once per occurrence in the stored log and shown as
description, duration and formatted date. A stored entry is left out exactly when
its date is strictly before `from` or strictly after `to`; a bound that is not
supplied leaves nothing out, so that without bounds every entry is returned. -/
theorem getLog_returns_entries_within_bounds (rt : Runtime) (store : Store)
    (query : LogQuery)
    (hsort : ∀ l, (rt.sort compareFn l).Perm l)
    (huser : ∃ u ∈ store, u.userId = query.userId)
    (hlimit : query.limit = none)
    (hfrom : ∀ s, query.from_ = some s → (rt.parseDate s).isSome = true)
    (hto : ∀ s, query.to_ = some s → (rt.parseDate s).isSome = true) :
    ∃ (i : Nat) (user : User) (entries : List Exercise),
      store[i]? = some user ∧ user.userId = query.userId ∧
      (∀ j, j < i → ∀ v, store[j]? = some v → v.userId ≠ query.userId) ∧
      getLog rt store query =
        .result user.username query.userId entries.length
          (entries.map (fun e => some (newX rt e))) ∧
      entries.Perm
        (user.log.filter (fun e =>
          withinBounds (query.from_.bind rt.parseDate) (query.to_.bind rt.parseDate) e.date)) ∧
      (∀ e ∈ user.log,
        (e ∉ entries ↔
          (∃ f, query.from_.bind rt.parseDate = some f ∧ e.date < f) ∨
          (∃ t, query.to_.bind rt.parseDate = some t ∧ t < e.date))) ∧
      (query.from_ = none → query.to_ = none → entries.Perm user.log) := by
  obtain ⟨i, user, hfind⟩ :=
    findOne_of_exists (fun u => u.userId == query.userId) store
      (by obtain ⟨u, hu, he⟩ := huser; exact ⟨u, hu, by simpa using he⟩)
  obtain ⟨hget, hp, hfirst⟩ := findOne_some_spec _ store i user hfind
  have hperm := filterTo_perm rt query.to_ (query.from_.bind rt.parseDate) _ user.log hto
    (filterFrom_perm rt query.from_ _ user.log hfrom (hsort user.log))
  refine ⟨i, user, filterTo rt query.to_ (filterFrom rt query.from_ (rt.sort compareFn user.log)),
    hget, by simpa using hp, ?_, ?_, hperm, ?_, ?_⟩
  · intro j hj v hv
    simpa using hfirst j hj v hv
  · simp [getLog, hfind, hlimit, Function.comp_def]
  · intro e he
    rw [hperm.mem_iff, List.mem_filter, withinBounds_iff]
    simp only [he, true_and, not_and_or, not_forall, not_le, exists_prop]
  · intro h1 h2
    simpa [h1, h2, withinBounds] using hperm

/-- C3, at an example: bob's two entries, queried from 2 January to 3 January 2024
on the runtime model; only the swim of 2 January is returned. -/
theorem getLog_returns_entries_within_bounds_witness :
    ∃ (i : Nat) (user : User) (entries : List Exercise),
      sampleStore[i]? = some user ∧ user.userId = bobBoundedQuery.userId ∧
      (∀ j, j < i → ∀ v, sampleStore[j]? = some v → v.userId ≠ bobBoundedQuery.userId) ∧
      getLog sampleRuntime sampleStore bobBoundedQuery =
        .result user.username bobBoundedQuery.userId entries.length
          (entries.map (fun e => some (newX sampleRuntime e))) ∧
      entries.Perm
        (user.log.filter (fun e =>
          withinBounds (bobBoundedQuery.from_.bind sampleRuntime.parseDate)
            (bobBoundedQuery.to_.bind sampleRuntime.parseDate) e.date)) ∧
      (∀ e ∈ user.log,
        (e ∉ entries ↔
          (∃ f, bobBoundedQuery.from_.bind sampleRuntime.parseDate = some f ∧ e.date < f) ∨
          (∃ t, bobBoundedQuery.to_.bind sampleRuntime.parseDate = some t ∧ t < e.date))) ∧
      (bobBoundedQuery.from_ = none → bobBoundedQuery.to_ = none → entries.Perm user.log) :=
  getLog_returns_entries_within_bounds sampleRuntime sampleStore bobBoundedQuery
    (fun l => v8Sort_perm compareFn l) ⟨bob, by decide, by decide⟩ rfl
    (by intro s hs; cases hs; decide) (by intro s hs; cases hs; decide)

/-- C4. On the runtime model, the log query for bob, whose stored log holds the swim
of 2 January 2024 before the run of 1 January 2024, returns the two entries in the
stored order, the later date first: the comparefn of line 115 yields a boolean, read
as 1 or 0 and never as a negative number, and the sort moves nothing. -/
theorem getLog_returns_bob_unsorted :
    getLog sampleRuntime sampleStore bobQuery =
      .result "bob" "b2" 2
        [some { description := "swim", duration := .finite 45, date := "Jan 2nd 2024 Tuesday" },
         some { description := "run", duration := .finite 30, date := "Jan 1st 2024 Monday" }] := by
  decide

/-- C5. On the runtime model, the log query for carol, whose log holds one entry, with
`limit=2` returns count 2 and a log of two elements, the entry and a hole (sent as
`null`): line 128 sets the length of the array to the limit, which lengthens an
array shorter than the limit. -/
theorem getLog_limit_pads_short_log :
    getLog sampleRuntime sampleStore carolLimitQuery =
      .result "carol" "c3" 2
        [some { description := "run", duration := .finite 30, date := "Jan 1st 2024 Monday" },
         none] := by
  decide

/-- Whenever a limit between 1 and 2^32 - 1 is supplied for an existing user, the
count of the answer is the limit itself, however many entries there are. -/
theorem getLog_count_eq_limit (rt : Runtime) (store : Store) (query : LogQuery) (i : Nat)
    (user : User) (limit : Int)
    (hfind : findOne (fun u => u.userId == query.userId) store = some (i, user))
    (hlimit : query.limit = some limit) (hpos : 0 < limit) (hlt : limit < 2 ^ 32) :
    ∃ log : List (Option LogItem),
      getLog rt store query = .result user.username query.userId limit.toNat log ∧
      log.length = limit.toNat := by
  have hlen : ∀ (l : List (Option Exercise)) (n : Nat), (setLength l n).length = n := by
    intro l n
    simp only [setLength, List.length_append, List.length_take, List.length_replicate]
    omega
  refine ⟨(setLength
      ((filterTo rt query.to_ (filterFrom rt query.from_ (rt.sort compareFn user.log))).map
        some) limit.toNat).map (Option.map (newX rt)), ?_, ?_⟩
  · simp only [getLog, hfind, hlimit, hpos, hlt, if_true]
    congr 1
    simp [hlen]
  · simp [hlen]

end ExerciseTracker
